import Mathlib

/-!
Verification of the Book-SOURCE-EXTRACTOR scraping core
(`src/services/scraperService.ts` and the appended gemini service, with the
data model of `src/types.ts`).

Shallow embedding conventions:
* JS strings are Lean `String`s; `.length` counts code points (the inputs of
  interest are BMP text, where this agrees with JS UTF-16 length).
* The browser DOM is embedded at the level the code reads it: an anchor
  element is its `href` attribute (`none` = attribute absent / null),
  its `textContent`, and the `textContent` of its parent and grandparent
  elements (`none` = the element does not exist).
* The platform URL resolver `new URL(href, BASE_URL + '/')` is an abstract
  parameter `resolve : String → Option String` (`none` = the constructor
  threw, which the code catches).
* The JS regexes are embedded as explicit leftmost-match scanners; for each
  regex of the source the greedy/backtracking behaviour collapses to
  max-munch (every quantified class is disjoint from the character that must
  follow it), which is what the scanners implement.
* `Promise.any` is embedded by giving every launched strategy a settle time
  and an outcome; the race resolves with the earliest fulfilled strategy
  (ties broken towards the earlier strategy in the list) and rejects with
  the list of all rejection messages (in strategy order, matching
  `AggregateError.errors`) when none fulfills.
-/

/-- `BookSource` of `src/types.ts` (the parser additionally attaches the
`updateDate` field it computes, line 165 of the service). -/
structure BookSource where
  id : String
  title : String
  originalUrl : String
  jsonUrl : String
  updateDate : Option String
deriving DecidableEq, Repr

/-- `ScrapeResult` of `src/types.ts`: `success`, `data`, optional `error`. -/
structure ScrapeResult where
  success : Bool
  data : List BookSource
  error : Option String
deriving DecidableEq, Repr

/-- One `<a>` element as the parser reads it: `getAttribute('href')`,
`textContent`, and the text content of `parentElement` and
`parentElement.parentElement` (`none` when the element is absent). -/
structure Anchor where
  href : Option String
  textContent : String
  parentText : Option String
  grandParentText : Option String
deriving DecidableEq, Repr

/-- Modelled from the spec: `constants.ts` is imported by the service but is
not part of the sources; the spec only fixes that these are the site base
URL, the listing URL and the JSON base path (fixed configuration values). -/
def BASE_URL : String := "https://booksite.example"

/-- Modelled from the spec: the bare listing URL (see `BASE_URL`). -/
def TARGET_URL : String := "https://booksite.example/shuyuan"

/-- Modelled from the spec: the JSON base path (see `BASE_URL`). -/
def JSON_BASE_URL : String := "https://booksite.example/shuyuan"

/-- JS regex class `\d`. -/
def isDigitCh (c : Char) : Bool := '0' ≤ c && c ≤ '9'

/-- JS regex class `\s` (restricted to the ASCII whitespace characters,
which covers every input this code meets). -/
def isSpaceCh (c : Char) : Bool :=
  c = ' ' || c = '\t' || c = '\n' || c = '\r' || c = '\x0b' || c = '\x0c'

/-- `replace(/\s+/g, ' ')`: every maximal whitespace run becomes one space.
The boolean records whether the previous character belonged to a run. -/
def squeezeAux : Bool → List Char → List Char
  | _, [] => []
  | prevWs, c :: cs =>
    if isSpaceCh c then
      if prevWs then squeezeAux true cs else ' ' :: squeezeAux true cs
    else c :: squeezeAux false cs

/-- `s.replace(/\s+/g, ' ')` on a JS string. -/
def collapseWs (s : String) : String := String.mk (squeezeAux false s.data)

/-- `String.prototype.trim`: drop leading and trailing whitespace. -/
def trimStr (s : String) : String :=
  String.mk (((s.data.dropWhile isSpaceCh).reverse.dropWhile isSpaceCh).reverse)

/-- Match a literal character sequence at the head, returning the rest. -/
def stripLit : List Char → List Char → Option (List Char)
  | [], l => some l
  | _ :: _, [] => none
  | p :: ps, c :: cs => if c = p then stripLit ps cs else none

/-- `\d{n}`: exactly `n` digits, returning them and the rest. -/
def takeDigits : Nat → List Char → Option (List Char × List Char)
  | 0, l => some ([], l)
  | _ + 1, [] => none
  | n + 1, c :: cs =>
    if isDigitCh c then (takeDigits n cs).map fun q => (c :: q.1, q.2)
    else none

/-- `\d{1,2}` (max-munch; equivalent to the regex because in every use the
following literal is not a digit). -/
def take12 : List Char → Option (List Char × List Char)
  | [] => none
  | c :: cs =>
    if isDigitCh c then
      match cs with
      | d :: ds => if isDigitCh d then some ([c, d], ds) else some ([c], cs)
      | [] => some ([c], [])
    else none

/-- `content\/id\/(\d+)\.html` at the current position: returns the capture
group (the digit run; the regex's greedy `\d+` followed by the non-digit `.`
is exactly the maximal digit run). -/
def idMatchAt (l : List Char) : Option (List Char) :=
  (stripLit "content/id/".data l).bind fun r =>
    if r.takeWhile isDigitCh = [] then none
    else (stripLit ".html".data (r.dropWhile isDigitCh)).map fun _ =>
      r.takeWhile isDigitCh

/-- `(\d{4}-\d{2}-\d{2})` at the current position. -/
def date1At (l : List Char) : Option (List Char) :=
  (takeDigits 4 l).bind fun p1 =>
    (stripLit ['-'] p1.2).bind fun r2 =>
      (takeDigits 2 r2).bind fun p2 =>
        (stripLit ['-'] p2.2).bind fun r4 =>
          (takeDigits 2 r4).map fun p3 => p1.1 ++ '-' :: (p2.1 ++ '-' :: p3.1)

/-- `(\d{1,2}\/\d{1,2}\s+\d{1,2}:\d{1,2})` at the current position. -/
def date2At (l : List Char) : Option (List Char) :=
  match take12 l with
  | none => none
  | some (a, r1) =>
    match r1 with
    | '/' :: r2 =>
      match take12 r2 with
      | none => none
      | some (b, r3) =>
        match r3.takeWhile isSpaceCh with
        | [] => none
        | _ =>
          match take12 (r3.dropWhile isSpaceCh) with
          | none => none
          | some (c4, r5) =>
            match r5 with
            | ':' :: r6 =>
              match take12 r6 with
              | none => none
              | some (d, _) =>
                some (a ++ '/' :: (b ++ r3.takeWhile isSpaceCh ++ c4 ++ ':' :: d))
            | _ => none
    | _ => none

/-- The unit alternation `(?:天|小时|分钟|秒)` at the current position. -/
def unitAt : List Char → Option (List Char × List Char)
  | '天' :: r => some (['天'], r)
  | '小' :: '时' :: r => some (['小', '时'], r)
  | '分' :: '钟' :: r => some (['分', '钟'], r)
  | '秒' :: r => some (['秒'], r)
  | _ => none

/-- `(\d+\s*(?:天|小时|分钟|秒)前)` at the current position. -/
def date3At (l : List Char) : Option (List Char) :=
  match l.takeWhile isDigitCh with
  | [] => none
  | _ =>
    match unitAt ((l.dropWhile isDigitCh).dropWhile isSpaceCh) with
    | none => none
    | some (u, r3) =>
      match r3 with
      | '前' :: _ =>
        some (l.takeWhile isDigitCh
          ++ ((l.dropWhile isDigitCh).takeWhile isSpaceCh ++ (u ++ ['前'])))
      | _ => none

/-- JS `a || b` on match results: the left value unless it is `none`. -/
def orElseO {α : Type} (a b : Option α) : Option α :=
  match a with
  | some v => some v
  | none => b

theorem orElseO_some {α : Type} (v : α) (b : Option α) :
    orElseO (some v) b = some v := rfl

theorem orElseO_none {α : Type} (b : Option α) : orElseO none b = b := rfl

/-- Leftmost match: try the position matcher at every suffix, left to right
(JS `String.prototype.match` / `RegExp.prototype.test` search semantics). -/
def scanWith (m : List Char → Option (List Char)) : List Char → Option (List Char)
  | [] => none
  | c :: cs => orElseO (m (c :: cs)) (scanWith m cs)

/-- `href.match(idRegex)` capture group 1 (service line 98/111). -/
def findIdMatch (s : String) : Option String :=
  (scanWith idMatchAt s.data).map String.mk

/-- `/content\/id\/\d+\.html/.test(html)` (service line 13). -/
def hasLinks (s : String) : Bool := (scanWith idMatchAt s.data).isSome

/-- `isValidContent` (service lines 10–15): too-short payloads and payloads
without the record-link pattern are rejected. -/
def isValidContent (html : String) : Bool :=
  if html.length < 500 then false else hasLinks html

/-- `contextText.match(dateRegex1)` capture (service line 101). -/
def matchDate1 (s : String) : Option String :=
  (scanWith date1At s.data).map String.mk

/-- `contextText.match(dateRegex2)` capture (service line 103). -/
def matchDate2 (s : String) : Option String :=
  (scanWith date2At s.data).map String.mk

/-- `contextText.match(dateRegex3)` capture (service line 105). -/
def matchDate3 (s : String) : Option String :=
  (scanWith date3At s.data).map String.mk

/-- `match(r1) || match(r2) || match(r3)` (service lines 138–140). -/
def findDateIn (s : String) : Option String :=
  orElseO (matchDate1 s) (orElseO (matchDate2 s) (matchDate3 s))

/-- `link.parentElement?.textContent || ""`, whitespace-collapsed
(service lines 134–136). -/
def parentCtx (a : Anchor) : String := collapseWs (a.parentText.getD "")

/-- The `updateDate` heuristic (service lines 130–157): search the collapsed
parent text with the three patterns in priority order; on no match, search
the grandparent text, but only when the grandparent exists and its collapsed
text is under 1000 characters. -/
def computeUpdateDate (a : Anchor) : Option String :=
  orElseO (findDateIn (parentCtx a))
    (match a.grandParentText with
      | none => none
      | some gp =>
        if (collapseWs gp).length < 1000 then findDateIn (collapseWs gp) else none)

/-- `href.replace(/^\//, '')`: strip one leading slash. -/
def dropLeadSlash (s : String) : String :=
  match s.data with
  | '/' :: rest => String.mk rest
  | _ => s

/-- `originalUrl` computation (service lines 121–128): resolve against the
base URL; when the platform resolver throws, keep `href` if it is absolute
(`startsWith 'http'`), else concatenate onto the base URL. -/
def mkOriginalUrl (resolve : String → Option String) (href : String) : String :=
  match resolve href with
  | some u => u
  | none => if href.startsWith "http" then href else BASE_URL ++ "/" ++ dropLeadSlash href

/-- `title` computation (service line 115): collapse whitespace, trim, and
fall back to `Source <id>` when the result is empty. -/
def mkTitle (a : Anchor) (id : String) : String :=
  let t := trimStr (collapseWs a.textContent)
  if t = "" then "Source " ++ id else t

/-- The record built for one matched anchor (service lines 113–166). -/
def mkBookSource (resolve : String → Option String) (a : Anchor) (id : String) :
    BookSource :=
  { id := id
    title := mkTitle a id
    originalUrl := mkOriginalUrl resolve (a.href.getD "")
    jsonUrl := JSON_BASE_URL ++ "/" ++ id ++ ".json"
    updateDate := computeUpdateDate a }

/-- The id captured from one anchor's `href` (service lines 108–113); a
missing (or empty, hence never matching) `href` yields no id. -/
def extractId (a : Anchor) : Option String := a.href.bind findIdMatch

/-- `uniqueSources.has(id)` on the insertion-order association list. -/
def hasKey (acc : List (String × BookSource)) (id : String) : Bool :=
  acc.any (fun p => p.1 == id)

/-- One iteration of the `links.forEach` body (service lines 107–169): a JS
`Map.set` guarded by `has` is an append to the insertion-order list. -/
def insertSource (resolve : String → Option String)
    (acc : List (String × BookSource)) (a : Anchor) :
    List (String × BookSource) :=
  match extractId a with
  | none => acc
  | some id =>
    if hasKey acc id then acc else acc ++ [(id, mkBookSource resolve a id)]

/-- `parseHtmlContent` (service lines 89–193) over the parsed document's
anchors in document order.  `DOMParser.parseFromString(_, 'text/html')` does
not throw, so the catch branch is dead and the function is total on the
anchor list. -/
def parseHtmlContent (resolve : String → Option String)
    (anchors : List Anchor) : ScrapeResult :=
  let sources := (anchors.foldl (insertSource resolve) []).map Prod.snd
  if sources.isEmpty then
    { success := false
      data := []
      error := some "Parsed HTML successfully but found no matching source links on this page." }
  else
    { success := true, data := sources, error := none }

/-- The ids captured from the anchors, in document order with repetitions. -/
def extractedIds (anchors : List Anchor) : List String :=
  anchors.filterMap extractId

/-! ## Fetch orchestrator (service lines 4–87) -/

/-- What a relay answered: `response.ok`, `response.status`, and the HTML
payload the fetcher extracts from the response body. -/
structure NetResp where
  ok : Bool
  status : Nat
  body : String
deriving DecidableEq, Repr

deriving instance DecidableEq for Except

/-- One settled strategy promise: when it settled and how. -/
structure StrategyOutcome where
  time : Nat
  result : Except String String
deriving DecidableEq, Repr

/-- The shared shape of `fetchViaCorsProxy` / `fetchViaAllOrigins` /
`fetchViaCodeTabs` (service lines 18–42): reject on a non-ok response with
`<name> error: <status>`, reject invalid content with
`<name> returned invalid content`, else fulfill with the payload. -/
def runFetcher (name : String) (resp : NetResp) (time : Nat) : StrategyOutcome :=
  if !resp.ok then { time := time, result := .error (name ++ " error: " ++ toString resp.status) }
  else if !isValidContent resp.body then
    { time := time, result := .error (name ++ " returned invalid content") }
  else { time := time, result := .ok resp.body }

/-- `urlToFetch` (service line 46): page 1 is the bare listing URL, any other
page appends the `page=` query parameter. -/
def urlFor (page : Nat) : String :=
  if page = 1 then TARGET_URL else TARGET_URL ++ "?page=" ++ toString page

/-- The strategy list (service lines 52–61): the three proxies bound to the
target URL, plus — exactly for page 1 — one extra CorsProxy strategy bound
to the site root. -/
def strategyUrls (page : Nat) : List (String × String) :=
  [("CorsProxy", urlFor page), ("AllOrigins", urlFor page), ("CodeTabs", urlFor page)]
    ++ (if page = 1 then [("CorsProxy", BASE_URL ++ "/")] else [])

/-- Run one strategy against the network environment `env`, which assigns
each (fetcher, url) pair its relay response and settle time. -/
def runStrategy (env : String × String → NetResp × Nat) (p : String × String) :
    StrategyOutcome :=
  runFetcher p.1 (env p).1 (env p).2

/-- All settled strategies of one `fetchBookSources` call, in launch order. -/
def settledOf (env : String × String → NetResp × Nat) (page : Nat) :
    List StrategyOutcome :=
  (strategyUrls page).map (runStrategy env)

/-- The rejection messages, in strategy order (the order of
`AggregateError.errors` for `Promise.any`). -/
def errorsOf (l : List StrategyOutcome) : List String :=
  l.filterMap (fun s => match s.result with | .error m => some m | .ok _ => none)

/-- `Promise.any`'s fulfillment: the earliest fulfilled strategy (earlier
strategies win ties), or `none` when every strategy rejects. -/
def firstSuccess : List StrategyOutcome → Option (Nat × String)
  | [] => none
  | s :: rest =>
    match s.result with
    | .error _ => firstSuccess rest
    | .ok h =>
      match firstSuccess rest with
      | none => some (s.time, h)
      | some (t, h') => if t < s.time then some (t, h') else some (s.time, h)

/-- `Array.prototype.join(sep)`. -/
def joinStr (sep : String) : List String → String
  | [] => ""
  | [a] => a
  | a :: b :: rest => a ++ sep ++ joinStr sep (b :: rest)

/-- The all-proxies-failed error string (service lines 73–84):
`errorDetails` is the joined `AggregateError` message list. -/
def aggError (page : Nat) (msgs : List String) : String :=
  "Auto-fetch failed for Page " ++ toString page
    ++ ". All proxies were blocked or returned invalid data. Please use Manual Mode or try again. (Details: "
    ++ joinStr "; " msgs ++ ")"

/-- `fetchBookSources` (service lines 44–87): race the strategies; parse the
first fulfilled payload, or aggregate every rejection into a failure result.
The orchestrator always returns a `ScrapeResult` (never rejects). -/
def fetchBookSources (resolve : String → Option String)
    (domAnchors : String → List Anchor)
    (env : String × String → NetResp × Nat) (page : Nat) : ScrapeResult :=
  match firstSuccess (settledOf env page) with
  | some (_, html) => parseHtmlContent resolve (domAnchors html)
  | none =>
    { success := false
      data := []
      error := some (aggError page (errorsOf (settledOf env page))) }

/-! ## Gemini service (`analyzeTitles`, appended service lines 219–265) -/

/-- `AnalysisResult` of `src/types.ts`. -/
structure AnalysisResult where
  summary : String
  tags : List String
deriving DecidableEq, Repr

/-- The prompt template (service lines 228–235): first 50 titles joined with
a comma, with an `...and more` marker when more existed. -/
def buildPrompt (titles : List String) : String :=
  "\n      Analyze the following list of book source titles. \n      Provide a brief summary of the types of content available (e.g., \"Mostly fantasy novels\", \"Mixed genres\").\n      Also provide a list of up to 5 relevant tags/categories.\n      \n      Titles:\n      "
    ++ joinStr ", " (titles.take 50) ++ " "
    ++ (if titles.length > 50 then "...and more" else "") ++ "\n    "

/-- `analyzeTitles` (service lines 219–265).  `aiConfigured` is whether the
client was initialized from an API key; `callApi` abstracts the
`generateContent` call (returning the response text, `none` on any thrown
failure or missing text); `parseJson` abstracts `JSON.parse`.  The second
component counts the external API calls issued. -/
def analyzeTitles (aiConfigured : Bool) (callApi : String → Option String)
    (parseJson : String → Option AnalysisResult) (titles : List String) :
    Option AnalysisResult × Nat :=
  if !aiConfigured then (none, 0)
  else if titles.length = 0 then (none, 0)
  else
    match callApi (buildPrompt titles) with
    | none => (none, 1)
    | some text =>
      match parseJson text with
      | none => (none, 1)
      | some r => (some r, 1)

/-! ## Characterization vocabulary used by the theorems -/

/-- First-occurrence deduplication, skipping ids already in `seen`. -/
def firstDedupFrom (seen : List String) : List String → List String
  | [] => []
  | x :: xs =>
    if x ∈ seen then firstDedupFrom seen xs
    else x :: firstDedupFrom (seen ++ [x]) xs

/-- First-occurrence deduplication: distinct elements in first-seen order. -/
def firstDedup (l : List String) : List String := firstDedupFrom [] l

/-- The recursive shape of the forEach/Map loop: the records contributed by
`anchors` when the ids in `seen` are already in the map. -/
def buildRest (resolve : String → Option String) (seen : List String) :
    List Anchor → List (String × BookSource)
  | [] => []
  | a :: rest =>
    match extractId a with
    | none => buildRest resolve seen rest
    | some id =>
      if id ∈ seen then buildRest resolve seen rest
      else (id, mkBookSource resolve a id) :: buildRest resolve (seen ++ [id]) rest

/-- `m` occurs as a contiguous substring of `s`. -/
def SubStrOf (m s : String) : Prop :=
  ∃ pre post, s.data = pre ++ m.data ++ post

/-- `s` contains a substring matched by `content/id/(\d+)\.html`. -/
def ContainsLink (s : String) : Prop :=
  ∃ pre ds post,
    s.data = pre ++ "content/id/".data ++ ds ++ ".html".data ++ post
      ∧ ds ≠ [] ∧ ∀ c ∈ ds, isDigitCh c = true

/-- The shape matched by `\d{4}-\d{2}-\d{2}`. -/
def Date1Shape (m : String) : Prop :=
  ∃ a b c, m.data = a ++ '-' :: (b ++ '-' :: c)
    ∧ a.length = 4 ∧ b.length = 2 ∧ c.length = 2
    ∧ (∀ x ∈ a, isDigitCh x = true) ∧ (∀ x ∈ b, isDigitCh x = true)
    ∧ (∀ x ∈ c, isDigitCh x = true)

/-- `s` contains a `YYYY-MM-DD`-shaped substring. -/
def ContainsDate1 (s : String) : Prop :=
  ∃ pre d post, s.data = pre ++ d ++ post ∧ Date1Shape (String.mk d)

/-- `s` contains the literal `天前`. -/
def ContainsRel (s : String) : Prop :=
  ∃ pre post, s.data = pre ++ ['天', '前'] ++ post

/-- The discriminated-union invariant of `ScrapeResult` (spec §3/§4.4). -/
def ResultInv (r : ScrapeResult) : Prop :=
  (r.success = true ∧ r.data ≠ [] ∧ r.error = none)
    ∨ (r.success = false ∧ r.data = [] ∧ ∃ e, r.error = some e ∧ e.data ≠ [])

/-! ## Lemmas about the literal and digit-run scanners -/

theorem stripLit_of_append (p r : List Char) : stripLit p (p ++ r) = some r := by
  induction p with
  | nil => rfl
  | cons c cs ih => simp [stripLit, ih]

theorem stripLit_eq_some {p l r : List Char} (h : stripLit p l = some r) :
    l = p ++ r := by
  induction p generalizing l with
  | nil => simp [stripLit] at h; simp [h]
  | cons c cs ih =>
    cases l with
    | nil => simp [stripLit] at h
    | cons x xs =>
      by_cases hx : x = c
      · subst hx
        simp [stripLit] at h
        simp [ih h]
      · simp [stripLit, hx] at h

theorem takeWhile_run_append {p : Char → Bool} {ds : List Char} {x : Char}
    (r : List Char) (h : ∀ c ∈ ds, p c = true) (hx : p x = false) :
    (ds ++ x :: r).takeWhile p = ds := by
  induction ds with
  | nil => simp [List.takeWhile, hx]
  | cons c cs ih =>
    have hc : p c = true := h c (by simp)
    simp only [List.cons_append, List.takeWhile_cons, hc, if_true]
    rw [ih (fun d hd => h d (by simp [hd]))]

theorem dropWhile_run_append {p : Char → Bool} {ds : List Char} {x : Char}
    (r : List Char) (h : ∀ c ∈ ds, p c = true) (hx : p x = false) :
    (ds ++ x :: r).dropWhile p = x :: r := by
  induction ds with
  | nil => simp [List.dropWhile, hx]
  | cons c cs ih =>
    have hc : p c = true := h c (by simp)
    simp only [List.cons_append, List.dropWhile_cons, hc, if_true]
    exact ih (fun d hd => h d (by simp [hd]))

theorem scanWith_isSome_of_at (m : List Char → Option (List Char))
    (pre : List Char) {l : List Char} (hne : l ≠ [])
    (h : (m l).isSome) : (scanWith m (pre ++ l)).isSome := by
  induction pre with
  | nil =>
    obtain ⟨v, hv⟩ := Option.isSome_iff_exists.mp h
    cases l with
    | nil => exact absurd rfl hne
    | cons c cs =>
      rw [List.nil_append, scanWith, hv, orElseO_some]
      rfl
  | cons a pre' ih =>
    rw [List.cons_append, scanWith]
    cases hm : m (a :: (pre' ++ l)) with
    | some w => simp [orElseO]
    | none => simpa [orElseO] using ih

theorem scanWith_sound {m : List Char → Option (List Char)} :
    ∀ {l v : List Char}, scanWith m l = some v →
      ∃ pre rest, l = pre ++ rest ∧ m rest = some v := by
  intro l
  induction l with
  | nil => intro v h; simp [scanWith] at h
  | cons c cs ih =>
    intro v h
    rw [scanWith] at h
    cases hm : m (c :: cs) with
    | some w =>
      simp only [orElseO, hm] at h
      exact ⟨[], c :: cs, by simp, by rw [hm, h]⟩
    | none =>
      simp only [orElseO, hm] at h
      obtain ⟨pre, rest, hsplit, hmatch⟩ := ih h
      exact ⟨c :: pre, rest, by simp [hsplit], hmatch⟩

/-! ## Lemmas about the record-link pattern -/

theorem idMatchAt_of_shape {ds : List Char} (post : List Char) (hne : ds ≠ [])
    (hd : ∀ c ∈ ds, isDigitCh c = true) :
    idMatchAt ("content/id/".data ++ (ds ++ (".html".data ++ post))) = some ds := by
  have hdot : isDigitCh '.' = false := by decide
  have h5 : (".html".data : List Char) ++ post = '.' :: ("html".data ++ post) := rfl
  have htake : (ds ++ (".html".data ++ post)).takeWhile isDigitCh = ds := by
    rw [h5]; exact takeWhile_run_append _ hd hdot
  have hdrop : (ds ++ (".html".data ++ post)).dropWhile isDigitCh
      = ".html".data ++ post := by
    rw [h5]; exact dropWhile_run_append _ hd hdot
  unfold idMatchAt
  rw [stripLit_of_append]
  simp only [Option.some_bind, htake, hdrop, if_neg hne, stripLit_of_append,
    Option.map_some']

theorem idMatchAt_sound {l ds : List Char} (h : idMatchAt l = some ds) :
    ∃ rest, l = "content/id/".data ++ (ds ++ (".html".data ++ rest))
      ∧ ds ≠ [] ∧ ∀ c ∈ ds, isDigitCh c = true := by
  unfold idMatchAt at h
  rw [Option.bind_eq_some] at h
  obtain ⟨r, hs, h⟩ := h
  by_cases hemp : r.takeWhile isDigitCh = []
  · rw [if_pos hemp] at h
    simp at h
  · rw [if_neg hemp, Option.map_eq_some'] at h
    obtain ⟨rest, hsd, hds⟩ := h
    have hl : l = "content/id/".data ++ r := stripLit_eq_some hs
    have hr : r = ds ++ (".html".data ++ rest) := by
      conv_lhs => rw [← List.takeWhile_append_dropWhile isDigitCh r]
      rw [hds, stripLit_eq_some hsd]
    refine ⟨rest, by rw [hl, hr], ?_, ?_⟩
    · rw [← hds]; exact hemp
    · intro c hc
      exact List.mem_takeWhile_imp (by rw [hds]; exact hc)

theorem hasLinks_iff (s : String) : hasLinks s = true ↔ ContainsLink s := by
  constructor
  · intro h
    unfold hasLinks at h
    cases hscan : scanWith idMatchAt s.data with
    | none => rw [hscan] at h; simp at h
    | some ds =>
      obtain ⟨pre, rest, hsplit, hm⟩ := scanWith_sound hscan
      obtain ⟨post, hshape, hne, hd⟩ := idMatchAt_sound hm
      exact ⟨pre, ds, post, by rw [hsplit, hshape]; simp, hne, hd⟩
  · intro ⟨pre, ds, post, hshape, hne, hd⟩
    unfold hasLinks
    have hmatch := idMatchAt_of_shape post hne hd
    have hlit : ("content/id/".data : List Char) ++ (ds ++ (".html".data ++ post)) ≠ [] := by
      simp
    have := scanWith_isSome_of_at idMatchAt pre hlit (by rw [hmatch]; rfl)
    have hdata : s.data = pre ++ ("content/id/".data ++ (ds ++ (".html".data ++ post))) := by
      rw [hshape]; simp
    rw [← hdata] at this
    exact this

/-- C4: the content validator rejects every payload shorter than 500
characters, accepts every payload of 500+ characters containing a
`content/id/<digits>.html` substring, and rejects any payload with no such
substring regardless of length. -/
theorem claim_C4 (s : String) :
    (s.length < 500 → isValidContent s = false)
      ∧ (500 ≤ s.length → ContainsLink s → isValidContent s = true)
      ∧ (¬ ContainsLink s → isValidContent s = false) := by
  refine ⟨fun h => ?_, fun hlen hc => ?_, fun hnc => ?_⟩
  · simp [isValidContent, h]
  · have : ¬ s.length < 500 := by omega
    simp [isValidContent, this, (hasLinks_iff s).mpr hc]
  · have hl : hasLinks s = false := by
      cases h : hasLinks s with
      | false => rfl
      | true => exact absurd ((hasLinks_iff s).mp h) hnc
    unfold isValidContent
    split
    · rfl
    · exact hl

/-! ## The forEach/Map loop of the extractor -/

theorem hasKey_iff (acc : List (String × BookSource)) (id : String) :
    hasKey acc id = true ↔ id ∈ acc.map Prod.fst := by
  rw [hasKey, List.any_eq_true]
  constructor
  · rintro ⟨p, hp, he⟩
    exact List.mem_map.mpr ⟨p, hp, beq_iff_eq.mp he⟩
  · intro hmem
    obtain ⟨p, hp, he⟩ := List.mem_map.mp hmem
    exact ⟨p, hp, beq_iff_eq.mpr he⟩

theorem insertSource_none {resolve : String → Option String} {a : Anchor}
    (acc : List (String × BookSource)) (h : extractId a = none) :
    insertSource resolve acc a = acc := by
  simp [insertSource, h]

theorem insertSource_dup {resolve : String → Option String} {a : Anchor}
    {id : String} (acc : List (String × BookSource)) (h : extractId a = some id)
    (hm : hasKey acc id = true) : insertSource resolve acc a = acc := by
  simp [insertSource, h, hm]

theorem insertSource_new {resolve : String → Option String} {a : Anchor}
    {id : String} (acc : List (String × BookSource)) (h : extractId a = some id)
    (hm : hasKey acc id = false) :
    insertSource resolve acc a = acc ++ [(id, mkBookSource resolve a id)] := by
  simp [insertSource, h, hm]

theorem buildRest_cons_none {resolve : String → Option String} {a : Anchor}
    (seen : List String) (rest : List Anchor) (h : extractId a = none) :
    buildRest resolve seen (a :: rest) = buildRest resolve seen rest := by
  simp [buildRest, h]

theorem buildRest_cons_mem {resolve : String → Option String} {a : Anchor}
    {id : String} (seen : List String) (rest : List Anchor)
    (h : extractId a = some id) (hm : id ∈ seen) :
    buildRest resolve seen (a :: rest) = buildRest resolve seen rest := by
  simp [buildRest, h, hm]

theorem buildRest_cons_new {resolve : String → Option String} {a : Anchor}
    {id : String} (seen : List String) (rest : List Anchor)
    (h : extractId a = some id) (hm : id ∉ seen) :
    buildRest resolve seen (a :: rest)
      = (id, mkBookSource resolve a id) :: buildRest resolve (seen ++ [id]) rest := by
  simp [buildRest, h, hm]

theorem foldl_insert_eq (resolve : String → Option String) :
    ∀ (anchors : List Anchor) (acc : List (String × BookSource)),
      anchors.foldl (insertSource resolve) acc
        = acc ++ buildRest resolve (acc.map Prod.fst) anchors := by
  intro anchors
  induction anchors with
  | nil => intro acc; simp [buildRest]
  | cons a rest ih =>
    intro acc
    rw [List.foldl_cons]
    cases hid : extractId a with
    | none =>
      rw [insertSource_none acc hid, ih, buildRest_cons_none _ _ hid]
    | some id =>
      cases hk : hasKey acc id with
      | true =>
        rw [insertSource_dup acc hid hk, ih,
          buildRest_cons_mem _ _ hid ((hasKey_iff acc id).mp hk)]
      | false =>
        have hnm : id ∉ acc.map Prod.fst := fun hmem => by
          rw [(hasKey_iff acc id).mpr hmem] at hk
          cases hk
        rw [insertSource_new acc hid hk, ih, buildRest_cons_new _ _ hid hnm]
        simp

theorem extractedIds_cons_none {a : Anchor} (rest : List Anchor)
    (h : extractId a = none) : extractedIds (a :: rest) = extractedIds rest := by
  simp [extractedIds, List.filterMap_cons, h]

theorem extractedIds_cons_some {a : Anchor} {id : String} (rest : List Anchor)
    (h : extractId a = some id) :
    extractedIds (a :: rest) = id :: extractedIds rest := by
  simp [extractedIds, List.filterMap_cons, h]

theorem firstDedupFrom_cons (seen : List String) (x : String) (xs : List String) :
    firstDedupFrom seen (x :: xs)
      = if x ∈ seen then firstDedupFrom seen xs
        else x :: firstDedupFrom (seen ++ [x]) xs := by
  rw [firstDedupFrom]

theorem keys_buildRest (resolve : String → Option String) :
    ∀ (anchors : List Anchor) (seen : List String),
      (buildRest resolve seen anchors).map Prod.fst
        = firstDedupFrom seen (extractedIds anchors) := by
  intro anchors
  induction anchors with
  | nil => intro seen; simp [buildRest, extractedIds, firstDedupFrom]
  | cons a rest ih =>
    intro seen
    cases hid : extractId a with
    | none =>
      rw [buildRest_cons_none _ _ hid, extractedIds_cons_none _ hid]
      exact ih seen
    | some id =>
      rw [extractedIds_cons_some _ hid, firstDedupFrom_cons]
      by_cases hm : id ∈ seen
      · rw [buildRest_cons_mem _ _ hid hm, if_pos hm]
        exact ih seen
      · rw [buildRest_cons_new _ _ hid hm, if_neg hm, List.map_cons, ih]

theorem mem_of_firstDedupFrom :
    ∀ (l : List String) (seen : List String) (x : String),
      x ∈ firstDedupFrom seen l → x ∈ l ∧ x ∉ seen := by
  intro l
  induction l with
  | nil => intro seen x hx; simp [firstDedupFrom] at hx
  | cons y ys ih =>
    intro seen x hx
    rw [firstDedupFrom_cons] at hx
    by_cases hy : y ∈ seen
    · rw [if_pos hy] at hx
      obtain ⟨h1, h2⟩ := ih seen x hx
      exact ⟨List.mem_cons_of_mem _ h1, h2⟩
    · rw [if_neg hy] at hx
      rcases List.mem_cons.mp hx with rfl | htail
      · exact ⟨List.mem_cons_self _ _, hy⟩
      · obtain ⟨h1, h2⟩ := ih (seen ++ [y]) x htail
        refine ⟨List.mem_cons_of_mem _ h1, fun hs => h2 ?_⟩
        simp [hs]

theorem mem_firstDedupFrom_of :
    ∀ (l : List String) (seen : List String) (x : String),
      x ∈ l → x ∉ seen → x ∈ firstDedupFrom seen l := by
  intro l
  induction l with
  | nil => intro seen x hx; simp at hx
  | cons y ys ih =>
    intro seen x hx hns
    rw [firstDedupFrom_cons]
    by_cases hy : y ∈ seen
    · rw [if_pos hy]
      rcases List.mem_cons.mp hx with rfl | htail
      · exact absurd hy hns
      · exact ih seen x htail hns
    · rw [if_neg hy]
      rcases eq_or_ne x y with rfl | hxy
      · exact List.mem_cons_self _ _
      · rcases List.mem_cons.mp hx with rfl | htail
        · exact absurd rfl hxy
        · refine List.mem_cons_of_mem _ (ih (seen ++ [y]) x htail ?_)
          simp [hns, hxy]

theorem nodup_firstDedupFrom :
    ∀ (l : List String) (seen : List String), (firstDedupFrom seen l).Nodup := by
  intro l
  induction l with
  | nil => intro seen; simp [firstDedupFrom]
  | cons y ys ih =>
    intro seen
    rw [firstDedupFrom_cons]
    by_cases hy : y ∈ seen
    · rw [if_pos hy]; exact ih seen
    · rw [if_neg hy]
      refine List.nodup_cons.mpr ⟨fun hmem => ?_, ih (seen ++ [y])⟩
      have := (mem_of_firstDedupFrom ys (seen ++ [y]) y hmem).2
      simp at this

theorem firstDedupFrom_sublist :
    ∀ (l : List String) (seen : List String), (firstDedupFrom seen l).Sublist l := by
  intro l
  induction l with
  | nil => intro seen; simp [firstDedupFrom]
  | cons y ys ih =>
    intro seen
    rw [firstDedupFrom_cons]
    by_cases hy : y ∈ seen
    · rw [if_pos hy]; exact (ih seen).cons y
    · rw [if_neg hy]; exact (ih (seen ++ [y])).cons₂ y

theorem buildRest_spec (resolve : String → Option String) :
    ∀ (anchors : List Anchor) (seen : List String) (p : String × BookSource),
      p ∈ buildRest resolve seen anchors →
        p.1 ∉ seen
          ∧ ∃ a, anchors.find? (fun x => extractId x == some p.1) = some a
              ∧ p.2 = mkBookSource resolve a p.1 := by
  intro anchors
  induction anchors with
  | nil => intro seen p hp; simp [buildRest] at hp
  | cons a rest ih =>
    intro seen p hp
    cases hid : extractId a with
    | none =>
      rw [buildRest_cons_none _ _ hid] at hp
      obtain ⟨hns, a', hf, he⟩ := ih seen p hp
      exact ⟨hns, a', by simpa [List.find?_cons, hid] using hf, he⟩
    | some id =>
      by_cases hm : id ∈ seen
      · rw [buildRest_cons_mem _ _ hid hm] at hp
        obtain ⟨hns, a', hf, he⟩ := ih seen p hp
        have hne : id ≠ p.1 := fun h => hns (h ▸ hm)
        exact ⟨hns, a',
          by simpa [List.find?_cons, hid, beq_eq_false_iff_ne.mpr fun h =>
            hne (by simpa using h)] using hf, he⟩
      · rw [buildRest_cons_new _ _ hid hm] at hp
        rcases List.mem_cons.mp hp with rfl | htail
        · exact ⟨hm, a, by simp [List.find?_cons, hid], rfl⟩
        · obtain ⟨hns, a', hf, he⟩ := ih (seen ++ [id]) p htail
          have hp1 : p.1 ≠ id := fun h => hns (by simp [h])
          refine ⟨fun hs => hns (by simp [hs]), a', ?_, he⟩
          simpa [List.find?_cons, hid, beq_eq_false_iff_ne.mpr fun h =>
            hp1 (by simpa using h.symm)] using hf

theorem map_snd_eq_filterMap {α β : Type} (f : α → Option β) :
    ∀ (l : List (α × β)), (∀ p ∈ l, f p.1 = some p.2) →
      l.map Prod.snd = (l.map Prod.fst).filterMap f := by
  intro l
  induction l with
  | nil => intro _; simp
  | cons p ps ih =>
    intro h
    simp only [List.map_cons, List.filterMap_cons, h p (by simp)]
    rw [ih (fun q hq => h q (by simp [hq]))]

/-- C1: for every anchor list containing at least one record-link match
(N ≥ 1 matching anchors with M distinct captured ids), `parseHtmlContent`
returns a success with exactly the M distinct ids, in first-seen document
order, and each returned record is the one derived from the
first-encountered anchor bearing its id (so on duplicate ids the first
anchor's title and fields win). -/
theorem claim_C1 (resolve : String → Option String) (anchors : List Anchor)
    (hne : extractedIds anchors ≠ []) :
    (parseHtmlContent resolve anchors).success = true
      ∧ (parseHtmlContent resolve anchors).error = none
      ∧ (parseHtmlContent resolve anchors).data.map BookSource.id
          = firstDedup (extractedIds anchors)
      ∧ ((parseHtmlContent resolve anchors).data.map BookSource.id).Nodup
      ∧ (∀ i, i ∈ (parseHtmlContent resolve anchors).data.map BookSource.id
            ↔ i ∈ extractedIds anchors)
      ∧ ((parseHtmlContent resolve anchors).data.map BookSource.id).Sublist
          (extractedIds anchors)
      ∧ (parseHtmlContent resolve anchors).data
          = (firstDedup (extractedIds anchors)).filterMap
              (fun id => (anchors.find? (fun x => extractId x == some id)).map
                (fun a => mkBookSource resolve a id)) := by
  have hfold : anchors.foldl (insertSource resolve) []
      = buildRest resolve [] anchors := by
    simpa using foldl_insert_eq resolve anchors []
  have hkeys : (buildRest resolve [] anchors).map Prod.fst
      = firstDedup (extractedIds anchors) := keys_buildRest resolve anchors []
  have hBne : buildRest resolve [] anchors ≠ [] := by
    intro h0
    cases hi : extractedIds anchors with
    | nil => exact hne hi
    | cons x xs =>
      have h1 : firstDedup (extractedIds anchors) = [] := by
        rw [← hkeys, h0]; rfl
      rw [hi, firstDedup, firstDedupFrom_cons, if_neg (List.not_mem_nil x)] at h1
      cases h1
  obtain ⟨b, bs, hBc⟩ : ∃ b bs, buildRest resolve [] anchors = b :: bs := by
    cases hB : buildRest resolve [] anchors with
    | nil => exact absurd hB hBne
    | cons b bs => exact ⟨b, bs, rfl⟩
  have hparse : parseHtmlContent resolve anchors
      = { success := true, data := (buildRest resolve [] anchors).map Prod.snd,
          error := none } := by
    simp only [parseHtmlContent]
    rw [hfold, hBc]
    simp [List.isEmpty]
  have hid_pt : ∀ p ∈ buildRest resolve [] anchors, (Prod.snd p).id = p.1 := by
    intro p hp
    obtain ⟨-, a, -, he⟩ := buildRest_spec resolve anchors [] p hp
    simp [he, mkBookSource]
  have hdata_ids :
      ((buildRest resolve [] anchors).map Prod.snd).map BookSource.id
        = firstDedup (extractedIds anchors) := by
    rw [List.map_map, ← hkeys]
    exact List.map_congr_left hid_pt
  have hvals : (buildRest resolve [] anchors).map Prod.snd
      = ((buildRest resolve [] anchors).map Prod.fst).filterMap
          (fun id => (anchors.find? (fun x => extractId x == some id)).map
            (fun a => mkBookSource resolve a id)) := by
    apply map_snd_eq_filterMap
    intro p hp
    obtain ⟨-, a, hf, he⟩ := buildRest_spec resolve anchors [] p hp
    rw [hf, Option.map_some', ← he]
  refine ⟨by simp [hparse], by simp [hparse], ?_, ?_, ?_, ?_, ?_⟩
  · simp only [hparse]
    exact hdata_ids
  · simp only [hparse]
    rw [hdata_ids]
    exact nodup_firstDedupFrom _ _
  · intro i
    simp only [hparse]
    rw [hdata_ids]
    constructor
    · intro h
      exact (mem_of_firstDedupFrom _ _ _ h).1
    · intro h
      exact mem_firstDedupFrom_of _ _ _ h (List.not_mem_nil i)
  · simp only [hparse]
    rw [hdata_ids]
    exact firstDedupFrom_sublist _ _
  · simp only [hparse]
    rw [hvals, hkeys]

/-- Trivial URL-resolver stand-in used by concrete test inputs: the platform
`URL` constructor always throwing, which exercises the fallback path. -/
def resolve0 : String → Option String := fun _ => none

/-- Concrete anchors: a duplicated id with two different titles, one
non-matching anchor, and one anchor with an empty title. -/
def anchorsW : List Anchor :=
  [ { href := some "/content/id/12.html", textContent := "First Title",
      parentText := some "First Title 2024-01-02", grandParentText := none },
    { href := some "/content/id/12.html", textContent := "Second Title",
      parentText := none, grandParentText := none },
    { href := some "no-match", textContent := "x",
      parentText := none, grandParentText := none },
    { href := some "/content/id/7.html", textContent := "",
      parentText := none, grandParentText := none } ]

theorem claim_C1_witness :
    extractedIds anchorsW ≠ []
      ∧ (parseHtmlContent resolve0 anchorsW).success = true
      ∧ (parseHtmlContent resolve0 anchorsW).data.map BookSource.id
          = firstDedup (extractedIds anchorsW)
      ∧ (parseHtmlContent resolve0 anchorsW).data
          = (firstDedup (extractedIds anchorsW)).filterMap
              (fun id => (anchorsW.find? (fun x => extractId x == some id)).map
                (fun a => mkBookSource resolve0 a id)) := by
  have h := claim_C1 resolve0 anchorsW (by decide)
  exact ⟨by decide, h.1, h.2.2.1, h.2.2.2.2.2.2⟩

/-! ## Lemmas about the date patterns -/

theorem stripLit_single (c : Char) (x : List Char) :
    stripLit [c] (c :: x) = some x := by
  simp [stripLit]

theorem takeDigits_of_run : ∀ (a r : List Char) (n : Nat), a.length = n →
    (∀ c ∈ a, isDigitCh c = true) → takeDigits n (a ++ r) = some (a, r) := by
  intro a
  induction a with
  | nil =>
    intro r n hlen _
    simp at hlen
    subst hlen
    rfl
  | cons c cs ih =>
    intro r n hlen h
    subst hlen
    have hc : isDigitCh c = true := h c (by simp)
    simp only [List.length_cons, List.cons_append, takeDigits, hc, if_true,
      List.append_eq]
    rw [ih r cs.length rfl (fun d hd => h d (by simp [hd]))]
    simp

theorem takeDigits_sound : ∀ (n : Nat) (l : List Char) (p : List Char × List Char),
    takeDigits n l = some p →
      l = p.1 ++ p.2 ∧ p.1.length = n ∧ ∀ c ∈ p.1, isDigitCh c = true := by
  intro n
  induction n with
  | zero =>
    intro l p h
    rw [takeDigits] at h
    cases h
    simp
  | succ n ih =>
    intro l p h
    cases l with
    | nil => rw [takeDigits] at h; cases h
    | cons c cs =>
      rw [takeDigits] at h
      by_cases hc : isDigitCh c = true
      · rw [if_pos hc, Option.map_eq_some'] at h
        obtain ⟨q, hq, he⟩ := h
        obtain ⟨hsplit, hlen, hd⟩ := ih cs q hq
        subst he
        refine ⟨by simp [hsplit], by simp [hlen], ?_⟩
        intro x hx
        rcases List.mem_cons.mp hx with rfl | hx'
        · exact hc
        · exact hd x hx'
      · rw [if_neg hc] at h
        cases h

theorem date1At_of_shape {a b c : List Char} (post : List Char)
    (ha4 : a.length = 4) (hb2 : b.length = 2) (hc2 : c.length = 2)
    (hda : ∀ x ∈ a, isDigitCh x = true) (hdb : ∀ x ∈ b, isDigitCh x = true)
    (hdc : ∀ x ∈ c, isDigitCh x = true) :
    date1At (a ++ '-' :: (b ++ '-' :: (c ++ post)))
      = some (a ++ '-' :: (b ++ '-' :: c)) := by
  unfold date1At
  rw [takeDigits_of_run a _ 4 ha4 hda]
  simp only [Option.some_bind]
  rw [stripLit_single]
  simp only [Option.some_bind]
  rw [takeDigits_of_run b _ 2 hb2 hdb]
  simp only [Option.some_bind]
  rw [stripLit_single]
  simp only [Option.some_bind]
  rw [takeDigits_of_run c post 2 hc2 hdc]
  simp only [Option.map_some']

theorem date1At_sound {l m : List Char} (h : date1At l = some m) :
    Date1Shape (String.mk m) := by
  unfold date1At at h
  rw [Option.bind_eq_some] at h
  obtain ⟨p1, h1, h⟩ := h
  rw [Option.bind_eq_some] at h
  obtain ⟨r2, hs1, h⟩ := h
  rw [Option.bind_eq_some] at h
  obtain ⟨p2, h2, h⟩ := h
  rw [Option.bind_eq_some] at h
  obtain ⟨r4, hs2, h⟩ := h
  rw [Option.map_eq_some'] at h
  obtain ⟨p3, h3, he⟩ := h
  obtain ⟨-, hl1, hd1⟩ := takeDigits_sound 4 l p1 h1
  obtain ⟨-, hl2, hd2⟩ := takeDigits_sound 2 r2 p2 h2
  obtain ⟨-, hl3, hd3⟩ := takeDigits_sound 2 r4 p3 h3
  exact ⟨p1.1, p2.1, p3.1, by rw [← he], hl1, hl2, hl3, hd1, hd2, hd3⟩

theorem matchDate1_of_contains {s : String} (h : ContainsDate1 s) :
    ∃ m, matchDate1 s = some m := by
  obtain ⟨pre, d, post, hsplit, a, b, c, hd, ha4, hb2, hc2, hda, hdb, hdc⟩ := h
  have hd' : d = a ++ '-' :: (b ++ '-' :: c) := hd
  have hpos : date1At (a ++ '-' :: (b ++ '-' :: (c ++ post)))
      = some (a ++ '-' :: (b ++ '-' :: c)) :=
    date1At_of_shape post ha4 hb2 hc2 hda hdb hdc
  have hne : (a ++ '-' :: (b ++ '-' :: (c ++ post))) ≠ [] := by
    cases a <;> simp
  have hsome := scanWith_isSome_of_at date1At pre hne (by rw [hpos]; rfl)
  have hdata : s.data = pre ++ (a ++ '-' :: (b ++ '-' :: (c ++ post))) := by
    rw [hsplit, hd']
    simp
  rw [← hdata] at hsome
  obtain ⟨v, hv⟩ := Option.isSome_iff_exists.mp hsome
  exact ⟨String.mk v, by unfold matchDate1; rw [hv]; rfl⟩

theorem matchDate1_shape {s m : String} (h : matchDate1 s = some m) :
    Date1Shape m := by
  unfold matchDate1 at h
  rw [Option.map_eq_some'] at h
  obtain ⟨v, hv, he⟩ := h
  obtain ⟨pre, rest, hsplit, hat⟩ := scanWith_sound hv
  have := date1At_sound hat
  rw [← he]
  exact this

/-! ## Reduction lemmas for the `||` chains of the date search -/

theorem findDateIn_eq_some1 {s m : String} (h : matchDate1 s = some m) :
    findDateIn s = some m := by
  unfold findDateIn
  rw [h, orElseO_some]

theorem findDateIn_eq_some2 {s m : String} (h1 : matchDate1 s = none)
    (h : matchDate2 s = some m) : findDateIn s = some m := by
  unfold findDateIn
  rw [h1, h, orElseO_none, orElseO_some]

theorem findDateIn_eq_some3 {s m : String} (h1 : matchDate1 s = none)
    (h2 : matchDate2 s = none) (h : matchDate3 s = some m) :
    findDateIn s = some m := by
  unfold findDateIn
  rw [h1, h2, h, orElseO_none, orElseO_none]

theorem findDateIn_eq_none {s : String} (h1 : matchDate1 s = none)
    (h2 : matchDate2 s = none) (h3 : matchDate3 s = none) :
    findDateIn s = none := by
  unfold findDateIn
  rw [h1, h2, h3, orElseO_none, orElseO_none]

theorem computeUpdateDate_of_parent {a : Anchor} {m : String}
    (h : findDateIn (parentCtx a) = some m) : computeUpdateDate a = some m := by
  unfold computeUpdateDate
  rw [h, orElseO_some]

theorem computeUpdateDate_of_parent_none {a : Anchor}
    (h : findDateIn (parentCtx a) = none) :
    computeUpdateDate a
      = (match a.grandParentText with
          | none => none
          | some gp =>
            if (collapseWs gp).length < 1000 then findDateIn (collapseWs gp)
            else none) := by
  unfold computeUpdateDate
  rw [h, orElseO_none]

/-- C5: `updateDate` tests the collapsed context text against the three date
patterns in fixed priority order — `YYYY-MM-DD`, then `MM/DD HH:MM`, then the
relative `<n><unit>前` — and the first to match wins; in particular a context
containing both a `YYYY-MM-DD` substring and a `天前` substring yields the
`YYYY-MM-DD` match, and if no pattern matches anywhere the field stays
unset. -/
theorem claim_C5 (a : Anchor) :
    (∀ m, matchDate1 (parentCtx a) = some m → computeUpdateDate a = some m)
      ∧ (matchDate1 (parentCtx a) = none →
          ∀ m, matchDate2 (parentCtx a) = some m → computeUpdateDate a = some m)
      ∧ (matchDate1 (parentCtx a) = none → matchDate2 (parentCtx a) = none →
          ∀ m, matchDate3 (parentCtx a) = some m → computeUpdateDate a = some m)
      ∧ (ContainsDate1 (parentCtx a) → ContainsRel (parentCtx a) →
          ∃ m, matchDate1 (parentCtx a) = some m ∧ computeUpdateDate a = some m
            ∧ Date1Shape m)
      ∧ (matchDate1 (parentCtx a) = none → matchDate2 (parentCtx a) = none →
          matchDate3 (parentCtx a) = none →
          (∀ gp, a.grandParentText = some gp → findDateIn (collapseWs gp) = none) →
          computeUpdateDate a = none) := by
  refine ⟨?_, ?_, ?_, ?_, ?_⟩
  · intro m hm
    exact computeUpdateDate_of_parent (findDateIn_eq_some1 hm)
  · intro h1 m hm
    exact computeUpdateDate_of_parent (findDateIn_eq_some2 h1 hm)
  · intro h1 h2 m hm
    exact computeUpdateDate_of_parent (findDateIn_eq_some3 h1 h2 hm)
  · intro hc _
    obtain ⟨m, hm⟩ := matchDate1_of_contains hc
    exact ⟨m, hm, computeUpdateDate_of_parent (findDateIn_eq_some1 hm),
      matchDate1_shape hm⟩
  · intro h1 h2 h3 h4
    rw [computeUpdateDate_of_parent_none (findDateIn_eq_none h1 h2 h3)]
    cases hgp : a.grandParentText with
    | none => rfl
    | some gp =>
      show (if (collapseWs gp).length < 1000 then findDateIn (collapseWs gp)
        else none) = none
      by_cases hlen : (collapseWs gp).length < 1000
      · rw [if_pos hlen]
        exact h4 gp hgp
      · rw [if_neg hlen]

/-- C6: when the parent context has no date match, the grandparent text is
searched only if its collapsed length is strictly under 1000 characters; at
1000 or more the guard suppresses the search entirely and `updateDate`
stays unset. -/
theorem claim_C6 (a : Anchor) (gp : String)
    (hparent : findDateIn (parentCtx a) = none)
    (hgp : a.grandParentText = some gp) :
    (1000 ≤ (collapseWs gp).length → computeUpdateDate a = none)
      ∧ ((collapseWs gp).length < 1000 →
          computeUpdateDate a = findDateIn (collapseWs gp)) := by
  have hbase := computeUpdateDate_of_parent_none hparent
  rw [hgp] at hbase
  constructor
  · intro hlen
    rw [hbase]
    show (if (collapseWs gp).length < 1000 then findDateIn (collapseWs gp)
      else none) = none
    rw [if_neg (by omega)]
  · intro hlen
    rw [hbase]
    show (if (collapseWs gp).length < 1000 then findDateIn (collapseWs gp)
      else none) = findDateIn (collapseWs gp)
    rw [if_pos hlen]

/-- An anchor whose parent text holds both an absolute and a relative date. -/
def aW5 : Anchor :=
  { href := some "/content/id/3.html", textContent := "T",
    parentText := some "T posted 2024-01-02 also 3天前", grandParentText := none }

/-- An anchor whose parent text holds no date at all. -/
def aW5n : Anchor :=
  { href := some "/content/id/3.html", textContent := "T",
    parentText := some "no date here", grandParentText := none }

theorem claim_C5_witness :
    computeUpdateDate aW5 = some "2024-01-02" ∧ computeUpdateDate aW5n = none :=
  ⟨(claim_C5 aW5).1 "2024-01-02" (by decide),
   (claim_C5 aW5n).2.2.2.2 (by decide) (by decide) (by decide)
     (fun gp hgp => Option.noConfusion hgp)⟩

/-- A grandparent text of collapsed length 1011 (≥ 1000) containing a valid
`YYYY-MM-DD` date. -/
def gpW6 : String := "2024-01-02 " ++ String.mk (List.replicate 1000 'x')

/-- An anchor with a date-free parent and the oversized grandparent. -/
def aW6 : Anchor :=
  { href := some "/content/id/3.html", textContent := "T",
    parentText := some "plain words", grandParentText := some gpW6 }

set_option maxRecDepth 20000 in
theorem claim_C6_witness : computeUpdateDate aW6 = none :=
  (claim_C6 aW6 gpW6 (by decide) rfl).1 (by decide)

/-! ## Lemmas about the strategy race -/

theorem firstSuccess_cons_err {s : StrategyOutcome} {m : String}
    (rest : List StrategyOutcome) (h : s.result = .error m) :
    firstSuccess (s :: rest) = firstSuccess rest := by
  rw [firstSuccess, h]

theorem firstSuccess_cons_ok_none {s : StrategyOutcome} {v : String}
    (rest : List StrategyOutcome) (h : s.result = .ok v)
    (hr : firstSuccess rest = none) :
    firstSuccess (s :: rest) = some (s.time, v) := by
  rw [firstSuccess, h, hr]

theorem firstSuccess_cons_ok_some {s : StrategyOutcome} {v : String}
    {t' : Nat} {h' : String} (rest : List StrategyOutcome) (h : s.result = .ok v)
    (hr : firstSuccess rest = some (t', h')) :
    firstSuccess (s :: rest)
      = if t' < s.time then some (t', h') else some (s.time, v) := by
  rw [firstSuccess, h, hr]

theorem firstSuccess_mem : ∀ (l : List StrategyOutcome) (t : Nat) (v : String),
    firstSuccess l = some (t, v) → ∃ s, s ∈ l ∧ s.time = t ∧ s.result = .ok v := by
  intro l
  induction l with
  | nil => intro t v hf; rw [firstSuccess] at hf; cases hf
  | cons s rest ih =>
    intro t v hf
    cases hr : s.result with
    | error m =>
      rw [firstSuccess_cons_err rest hr] at hf
      obtain ⟨s', hs', ht, hres⟩ := ih t v hf
      exact ⟨s', List.mem_cons_of_mem _ hs', ht, hres⟩
    | ok w =>
      cases hfr : firstSuccess rest with
      | none =>
        rw [firstSuccess_cons_ok_none rest hr hfr] at hf
        cases hf
        exact ⟨s, List.mem_cons_self _ _, rfl, hr⟩
      | some p =>
        obtain ⟨t', h'⟩ := p
        rw [firstSuccess_cons_ok_some rest hr hfr] at hf
        by_cases hlt : t' < s.time
        · rw [if_pos hlt] at hf
          cases hf
          obtain ⟨s', hs', ht, hres⟩ := ih _ _ hfr
          exact ⟨s', List.mem_cons_of_mem _ hs', ht, hres⟩
        · rw [if_neg hlt] at hf
          cases hf
          exact ⟨s, List.mem_cons_self _ _, rfl, hr⟩

theorem firstSuccess_win : ∀ (pre : List StrategyOutcome) (s : StrategyOutcome)
    (post : List StrategyOutcome) (html : String), s.result = .ok html →
    (∀ x, x ∈ pre ++ post → ∀ h, x.result = .ok h → s.time < x.time) →
    firstSuccess (pre ++ s :: post) = some (s.time, html) := by
  intro pre
  induction pre with
  | nil =>
    intro s post html hok hmin
    cases hfr : firstSuccess post with
    | none =>
      rw [List.nil_append]
      exact firstSuccess_cons_ok_none post hok hfr
    | some p =>
      obtain ⟨t', h'⟩ := p
      rw [List.nil_append, firstSuccess_cons_ok_some post hok hfr]
      obtain ⟨x, hx, hxt, hxres⟩ := firstSuccess_mem post t' h' hfr
      have hst : s.time < t' := by
        have := hmin x (by simpa using hx) h' hxres
        omega
      rw [if_neg (by omega)]
  | cons a pre' ih =>
    intro s post html hok hmin
    have hmin' : ∀ x, x ∈ pre' ++ post → ∀ h, x.result = .ok h → s.time < x.time := by
      intro x hx h hxr
      refine hmin x ?_ h hxr
      rcases List.mem_append.mp hx with h1 | h2
      · exact List.mem_append.mpr (Or.inl (List.mem_cons_of_mem _ h1))
      · exact List.mem_append.mpr (Or.inr h2)
    have hrec := ih s post html hok hmin'
    rw [List.cons_append]
    cases har : a.result with
    | error m =>
      rw [firstSuccess_cons_err _ har]
      exact hrec
    | ok w =>
      have hat : s.time < a.time := hmin a (by simp) w har
      rw [firstSuccess_cons_ok_some _ har hrec, if_pos hat]

theorem firstSuccess_all_err : ∀ (l : List StrategyOutcome),
    (∀ x ∈ l, ∃ m, x.result = .error m) → firstSuccess l = none := by
  intro l
  induction l with
  | nil => intro _; rfl
  | cons s rest ih =>
    intro h
    obtain ⟨m, hm⟩ := h s (by simp)
    rw [firstSuccess_cons_err _ hm]
    exact ih (fun x hx => h x (by simp [hx]))

/-! ## Substring facts about the aggregated error message -/

theorem subStr_join (sep : String) : ∀ (l : List String) (m : String), m ∈ l →
    SubStrOf m (joinStr sep l) := by
  intro l
  induction l with
  | nil => intro m hm; simp at hm
  | cons a rest ih =>
    intro m hm
    cases rest with
    | nil =>
      simp at hm
      subst hm
      exact ⟨[], [], by simp [joinStr]⟩
    | cons b bs =>
      rcases List.mem_cons.mp hm with rfl | htail
      · refine ⟨[], (sep ++ joinStr sep (b :: bs)).data, ?_⟩
        rw [joinStr]
        simp [String.data_append]
      · obtain ⟨pre, post, hsub⟩ := ih m htail
        refine ⟨(a ++ sep).data ++ pre, post, ?_⟩
        rw [joinStr]
        simp [String.data_append, hsub]

theorem subStrOf_wrap {m j : String} (a b : String) (h : SubStrOf m j) :
    SubStrOf m (a ++ j ++ b) := by
  obtain ⟨pre, post, hs⟩ := h
  exact ⟨a.data ++ pre, post ++ b.data, by simp [String.data_append, hs]⟩

/-- C2: whenever one launched strategy passes both checks (fulfills) strictly
before every other fulfilling strategy, the orchestrator returns exactly the
parse of that strategy's HTML; the other strategies' outcomes and timings are
universally quantified, so they cannot affect the result. -/
theorem claim_C2 (resolve : String → Option String)
    (domAnchors : String → List Anchor)
    (env : String × String → NetResp × Nat) (page : Nat)
    (pre post : List StrategyOutcome) (s : StrategyOutcome) (html : String)
    (hsplit : settledOf env page = pre ++ s :: post)
    (hok : s.result = .ok html)
    (hfirst : ∀ x, x ∈ pre ++ post → ∀ h, x.result = .ok h → s.time < x.time) :
    fetchBookSources resolve domAnchors env page
      = parseHtmlContent resolve (domAnchors html) := by
  unfold fetchBookSources
  rw [hsplit, firstSuccess_win pre s post html hok hfirst]

/-- C3: when every strategy rejects, the orchestrator resolves (never
rejects) to a failure result whose error string embeds every individual
rejection message, joined with `; ` inside the aggregate message. -/
theorem claim_C3 (resolve : String → Option String)
    (domAnchors : String → List Anchor)
    (env : String × String → NetResp × Nat) (page : Nat)
    (hall : ∀ x ∈ settledOf env page, ∃ m, x.result = .error m) :
    (fetchBookSources resolve domAnchors env page).success = false
      ∧ (fetchBookSources resolve domAnchors env page).data = []
      ∧ (fetchBookSources resolve domAnchors env page).error
          = some (aggError page (errorsOf (settledOf env page)))
      ∧ ∀ m ∈ errorsOf (settledOf env page),
          SubStrOf m (aggError page (errorsOf (settledOf env page))) := by
  have hnone := firstSuccess_all_err _ hall
  have hfetch : fetchBookSources resolve domAnchors env page
      = { success := false, data := [],
          error := some (aggError page (errorsOf (settledOf env page))) } := by
    unfold fetchBookSources
    rw [hnone]
  refine ⟨by rw [hfetch], by rw [hfetch], by rw [hfetch], ?_⟩
  intro m hm
  have h1 := subStr_join "; " (errorsOf (settledOf env page)) m hm
  exact subStrOf_wrap
    ("Auto-fetch failed for Page " ++ toString page
      ++ ". All proxies were blocked or returned invalid data. Please use Manual Mode or try again. (Details: ")
    ")" h1

/-- A 500-character payload starting with a record link (valid content). -/
def w500 : String := "content/id/12345.html" ++ String.mk (List.replicate 479 'x')

/-- A 499-character payload starting with a record link (too short). -/
def w499 : String := "content/id/12345.html" ++ String.mk (List.replicate 478 'x')

/-- A 600-character payload with no record-link substring. -/
def w600 : String := String.mk (List.replicate 600 'x')

set_option maxRecDepth 40000 in
theorem claim_C4_witness :
    isValidContent w499 = false ∧ isValidContent w500 = true
      ∧ isValidContent w600 = false := by
  refine ⟨(claim_C4 w499).1 (by decide), (claim_C4 w500).2.1 (by decide) ?_,
    (claim_C4 w600).2.2 ?_⟩
  · exact ⟨[], "12345".data, List.replicate 479 'x', by decide, by decide,
      by decide⟩
  · intro hc
    exact absurd ((hasLinks_iff w600).mpr hc) (by decide)

/-- A DOM reader stand-in for concrete tests: no anchors in any document. -/
def domA : String → List Anchor := fun _ => []

/-- A network where AllOrigins fulfills early with valid content and the
other relays answer HTTP 503 later. -/
def envW2 : String × String → NetResp × Nat := fun p =>
  if p.1 = "AllOrigins" then ({ ok := true, status := 200, body := w500 }, 1)
  else ({ ok := false, status := 503, body := "" }, 5)

set_option maxRecDepth 40000 in
theorem claim_C2_witness :
    fetchBookSources resolve0 domA envW2 2 = parseHtmlContent resolve0 (domA w500) := by
  have hsplit : settledOf envW2 2
      = [⟨5, .error "CorsProxy error: 503"⟩]
        ++ (⟨1, .ok w500⟩ : StrategyOutcome) :: [⟨5, .error "CodeTabs error: 503"⟩] := by
    decide
  refine claim_C2 resolve0 domA envW2 2 _ _ _ w500 hsplit rfl ?_
  intro x hx h hxr
  simp at hx
  rcases hx with rfl | rfl <;> simp at hxr

/-- A network where every relay answers HTTP 500. -/
def envW3 : String × String → NetResp × Nat :=
  fun _ => ({ ok := false, status := 500, body := "" }, 3)

theorem claim_C3_witness :
    (fetchBookSources resolve0 domA envW3 2).success = false
      ∧ SubStrOf "AllOrigins error: 500" (aggError 2 (errorsOf (settledOf envW3 2)))
      ∧ SubStrOf "CodeTabs error: 500" (aggError 2 (errorsOf (settledOf envW3 2))) := by
  have hall : ∀ x ∈ settledOf envW3 2, ∃ m, x.result = .error m := by
    intro x hx
    have hset : settledOf envW3 2
        = [⟨3, .error "CorsProxy error: 500"⟩, ⟨3, .error "AllOrigins error: 500"⟩,
           ⟨3, .error "CodeTabs error: 500"⟩] := by decide
    rw [hset] at hx
    simp at hx
    rcases hx with rfl | rfl | rfl
    · exact ⟨"CorsProxy error: 500", rfl⟩
    · exact ⟨"AllOrigins error: 500", rfl⟩
    · exact ⟨"CodeTabs error: 500", rfl⟩
  have h := claim_C3 resolve0 domA envW3 2 hall
  exact ⟨h.1, h.2.2.2 "AllOrigins error: 500" (by decide),
    h.2.2.2 "CodeTabs error: 500" (by decide)⟩

/-- C7: page 1 fetches the bare listing URL and gets one extra CorsProxy
strategy bound to the site root in addition to the three target-URL
strategies; every page N > 1 fetches the listing URL with `?page=N` appended
through exactly the three strategies. -/
theorem claim_C7 :
    urlFor 1 = TARGET_URL
      ∧ strategyUrls 1
          = [("CorsProxy", urlFor 1), ("AllOrigins", urlFor 1),
             ("CodeTabs", urlFor 1), ("CorsProxy", BASE_URL ++ "/")]
      ∧ ∀ p : Nat, 1 < p →
          urlFor p = TARGET_URL ++ "?page=" ++ toString p
            ∧ strategyUrls p
                = [("CorsProxy", urlFor p), ("AllOrigins", urlFor p),
                   ("CodeTabs", urlFor p)] := by
  refine ⟨by simp [urlFor], by simp [strategyUrls], ?_⟩
  intro p hp
  have hne : p ≠ 1 := by omega
  exact ⟨by simp [urlFor, hne], by simp [strategyUrls, hne]⟩

theorem claim_C7_witness :
    urlFor 2 = TARGET_URL ++ "?page=" ++ toString 2
      ∧ strategyUrls 2
          = [("CorsProxy", urlFor 2), ("AllOrigins", urlFor 2),
             ("CodeTabs", urlFor 2)] :=
  claim_C7.2.2 2 (by decide)

/-- C8: every result of the parser and of the orchestrator satisfies the
discriminated-union invariant: success means non-empty data and no error;
failure means empty data and a populated error string. -/
theorem claim_C8 :
    (∀ (resolve : String → Option String) (anchors : List Anchor),
        ResultInv (parseHtmlContent resolve anchors))
      ∧ ∀ (resolve : String → Option String) (domAnchors : String → List Anchor)
          (env : String × String → NetResp × Nat) (page : Nat),
          ResultInv (fetchBookSources resolve domAnchors env page) := by
  have hagg : ∀ (pg : Nat) (msgs : List String), (aggError pg msgs).data ≠ [] := by
    intro pg msgs
    unfold aggError
    rw [String.data_append, String.data_append, String.data_append,
      String.data_append]
    apply List.append_ne_nil_of_left_ne_nil
    apply List.append_ne_nil_of_left_ne_nil
    apply List.append_ne_nil_of_left_ne_nil
    apply List.append_ne_nil_of_left_ne_nil
    decide
  have hparse : ∀ (resolve : String → Option String) (anchors : List Anchor),
      ResultInv (parseHtmlContent resolve anchors) := by
    intro resolve anchors
    simp only [parseHtmlContent]
    cases hB : (anchors.foldl (insertSource resolve) []).map Prod.snd with
    | nil =>
      refine Or.inr ⟨rfl, rfl,
        "Parsed HTML successfully but found no matching source links on this page.",
        rfl, by decide⟩
    | cons b bs =>
      exact Or.inl ⟨rfl, by simp, rfl⟩
  refine ⟨hparse, ?_⟩
  intro resolve domAnchors env page
  unfold fetchBookSources
  cases hf : firstSuccess (settledOf env page) with
  | some p =>
    obtain ⟨t, html⟩ := p
    exact hparse resolve (domAnchors html)
  | none =>
    exact Or.inr ⟨rfl, rfl, aggError page (errorsOf (settledOf env page)), rfl,
      hagg page (errorsOf (settledOf env page))⟩

/-- C9: with an empty title list, `analyzeTitles` returns null without
issuing any external API call (call count 0), even when the API client is
configured. -/
theorem claim_C9 (callApi : String → Option String)
    (parseJson : String → Option AnalysisResult) :
    analyzeTitles true callApi parseJson [] = (none, 0) := rfl

/-- A 510-character payload carrying the record-link pattern in plain text
(its document parses to no anchor elements at all). -/
def w510 : String := "content/id/777.html " ++ String.mk (List.replicate 490 't')

set_option maxRecDepth 40000 in
/-- C10: a payload can pass the content validator while extraction still
fails: when no anchor carries a matching `href` (in particular when the
pattern occurs only in plain text and the document has no anchors), the
parser returns the `found no matching source links` failure. -/
theorem claim_C10 :
    isValidContent w510 = true
      ∧ ∀ (resolve : String → Option String) (anchors : List Anchor),
          (∀ a ∈ anchors, extractId a = none) →
            parseHtmlContent resolve anchors
              = { success := false, data := [],
                  error := some "Parsed HTML successfully but found no matching source links on this page." } := by
  constructor
  · decide
  · intro resolve anchors hnone
    have hids : extractedIds anchors = [] := by
      unfold extractedIds
      exact List.filterMap_eq_nil_iff.mpr hnone
    have hB : buildRest resolve [] anchors = [] := by
      have hk := keys_buildRest resolve anchors []
      rw [hids] at hk
      have hmap : (buildRest resolve [] anchors).map Prod.fst = [] := by
        rw [hk]
        rfl
      exact List.map_eq_nil_iff.mp hmap
    have hfold : anchors.foldl (insertSource resolve) [] = [] := by
      have := foldl_insert_eq resolve anchors []
      simpa [hB] using this
    simp only [parseHtmlContent]
    rw [hfold]
    rfl

theorem claim_C10_witness :
    isValidContent w510 = true
      ∧ parseHtmlContent resolve0 []
          = { success := false, data := [],
              error := some "Parsed HTML successfully but found no matching source links on this page." } :=
  ⟨claim_C10.1, claim_C10.2 resolve0 [] (fun a ha => absurd ha (List.not_mem_nil a))⟩
